import Mathlib

/-!
Shallow embedding of the assistant response generation module
(`app/openai_ops.py`): `generate_assistant_response` (thread creation,
deadline-bounded run polling, response extraction) and
`process_citations` (two-pass citation resolution).

Text values manipulated by `str.replace` are embedded as `List Char`;
run statuses and remote-call arguments that are only compared for
equality stay as `String`.  Remote collaborators (the OpenAI client and
the logger) are embedded as explicit parameters, and every remote call
made is recorded in an output trace so that claims about "no network
call" are provable.
-/

/-- A remote call made through the OpenAI client, with the arguments the
source passes.  `retrieveRun i` is the i-th re-fetch of the run status
inside the poll loop (i ≥ 1). -/
inductive RemoteCall where
  | createThread : RemoteCall
  | createMessage (content : List Char) : RemoteCall
  | createRun : RemoteCall
  | retrieveRun (i : Nat) : RemoteCall
  | listMessages (order : String) (limit : Nat) : RemoteCall
  | retrieveFile (file_id : String) : RemoteCall
deriving DecidableEq

/-- Kind of an annotation object: the source probes
`hasattr(annotation, 'file_citation')`, then
`hasattr(annotation, 'file_path')`; an object with neither attribute is
`other`.  The `file_id` lives under the probed attribute. -/
inductive AnnKind where
  | file_citation (file_id : String) : AnnKind
  | file_path (file_id : String) : AnnKind
  | other : AnnKind
deriving DecidableEq

/-- An annotation: its kind and its `.text` span (the exact substring of
the message that the annotation marks). -/
structure Annotation where
  kind : AnnKind
  text : List Char
deriving DecidableEq

/-- `text_content`: `.value` plus `.annotations` (a `text_content`
without the attribute behaves as `annotations = []`). -/
structure TextContent where
  value : List Char
  annotations : List Annotation
deriving DecidableEq

/-- One element of `response_message.content`: a `.type` tag and the
`.text` payload read when the tag is `"text"`. -/
structure ContentItem where
  type : String
  text : TextContent
deriving DecidableEq

/-- A message returned by `client.beta.threads.messages.list`. -/
structure Message where
  content : List ContentItem
deriving DecidableEq

/-- The `file_id` a catalogued annotation contributes, following the
source's `hasattr` chain (`file_citation` first, then `file_path`). -/
def annFid (a : Annotation) : Option String :=
  match a.kind with
  | .file_citation fid => some fid
  | .file_path fid => some fid
  | .other => none

/-- Fuel-based worker for `pyReplace`; `fuel ≥ s.length` makes the fuel
irrelevant (each step consumes at least one character). -/
def pyReplaceAux (p r : List Char) : Nat → List Char → List Char
  | _, [] => if p = [] then r else []
  | 0, s => s
  | fuel + 1, c :: s' =>
    if p ≠ [] ∧ p.isPrefixOf (c :: s') then
      r ++ pyReplaceAux p r fuel ((c :: s').drop p.length)
    else if p = [] then
      r ++ c :: pyReplaceAux p r fuel s'
    else
      c :: pyReplaceAux p r fuel s'

/-- Python `s.replace(p, r)`: replace every non-overlapping occurrence
of `p` in `s`, scanning left to right; an empty pattern inserts `r`
at every position (Python semantics). -/
def pyReplace (s p r : List Char) : List Char :=
  pyReplaceAux p r s.length s

/-- Python `sep.join(parts)`. -/
def joinWith (sep : List Char) : List (List Char) → List Char
  | [] => []
  | [t] => t
  | t :: t2 :: ts => t ++ sep ++ joinWith sep (t2 :: ts)

/-- Decidable "p occurs as a contiguous substring of s". -/
def occursIn (p : List Char) : List Char → Bool
  | [] => decide (p = [])
  | c :: s => p.isPrefixOf (c :: s) || occursIn p s

/-- The replacement marker `f' [{idx}]'` (note the leading space). -/
def markerOf (idx : Nat) : List Char :=
  (" [" ++ toString idx ++ "]").toList

/-- One footnote line `f'[{idx}] Citation from {filename}'`. -/
def citeLine (idx : Nat) (filename : List Char) : List Char :=
  ("[" ++ toString idx ++ "] Citation from ").toList ++ filename

/-- First pass of `process_citations`: catalog the unique file
citations.  `fc` is the `file_citations` dict (file_id → filename) and
`ci` the `citation_indices` dict (file_id → 1-based index), both as
insertion-ordered association lists.  A failing `client.files.retrieve`
is `retrieve fid = none` and aborts the pass (`none` result); the trace
component records the `files.retrieve` calls made, the failing one
included. -/
def catalog (retrieve : String → Option (List Char)) :
    List Annotation → List (String × List Char) → List (String × Nat) →
    Option (List (String × List Char) × List (String × Nat)) × List RemoteCall
  | [], fc, ci => (some (fc, ci), [])
  | a :: rest, fc, ci =>
    match annFid a with
    | none => catalog retrieve rest fc ci
    | some fid =>
      if (List.lookup fid fc).isSome then catalog retrieve rest fc ci
      else
        match retrieve fid with
        | none => (none, [RemoteCall.retrieveFile fid])
        | some fname =>
          let out := catalog retrieve rest (fc ++ [(fid, fname)]) (ci ++ [(fid, ci.length + 1)])
          (out.1, RemoteCall.retrieveFile fid :: out.2)

/-- Second pass: for each annotation, replace every occurrence of its
span with `f' [{idx}]'`.  A `citation_indices` miss is Python's
`KeyError` (`none`). -/
def substitute (ci : List (String × Nat)) : List Annotation → List Char → Option (List Char)
  | [], mv => some mv
  | a :: rest, mv =>
    match annFid a with
    | none => substitute ci rest mv
    | some fid =>
      match List.lookup fid ci with
      | none => none
      | some idx => substitute ci rest (pyReplace mv a.text (markerOf idx))

/-- Footnote assembly: one line per `file_citations` item, in insertion
order, looking the index up in `citation_indices` (`KeyError` = `none`). -/
def buildCitations (ci : List (String × Nat)) :
    List (String × List Char) → Option (List (List Char))
  | [] => some []
  | (fid, fname) :: rest =>
    match List.lookup fid ci with
    | none => none
    | some idx => (buildCitations ci rest).map (fun ls => citeLine idx fname :: ls)

/-- Result of `process_citations`: the returned text, the trace of
`client.files.retrieve` calls, and the error-log entries written. -/
structure CitOut where
  text : List Char
  calls : List RemoteCall
  logs : List (List Char)
deriving DecidableEq

/-- Log entry for the `except` branch of `process_citations` (the
source interpolates `str(e)`; the exception text is elided here). -/
def citErrLog : List Char := "Error processing citations: ".toList

/-- `process_citations(client, text_content, logger)`: empty annotation
list returns the value untouched; otherwise catalog, substitute,
assemble footnotes, appending them after `'\n\n'` when any exist; any
failure inside the `try` returns the original `text_content.value`. -/
def process_citations (retrieve : String → Option (List Char)) (tc : TextContent) : CitOut :=
  if tc.annotations = [] then ⟨tc.value, [], []⟩
  else
    match catalog retrieve tc.annotations [] [] with
    | (none, calls) => ⟨tc.value, calls, [citErrLog]⟩
    | (some (fc, ci), calls) =>
      match substitute ci tc.annotations tc.value with
      | none => ⟨tc.value, calls, [citErrLog]⟩
      | some mv =>
        match buildCitations ci fc with
        | none => ⟨tc.value, calls, [citErrLog]⟩
        | some lines =>
          if lines = [] then ⟨mv, calls, []⟩
          else ⟨mv ++ ("\n\n").toList ++ joinWith ("\n").toList lines, calls, []⟩

/-- Outcome of the poll loop: `timedOut` is the raised `TimeoutError`,
`terminal s` is loop exit with `run.status = s`; `fuelOut` marks
exhausted modelling fuel (a run that never leaves the loop within the
allotted iterations). -/
inductive PollOutcome where
  | timedOut : PollOutcome
  | terminal (s : String) : PollOutcome
  | fuelOut : PollOutcome
deriving DecidableEq

/-- The `while run.status in ["queued", "in_progress"]` loop.
`status i` is the run status held at the start of iteration `i`
(`status 0` comes from `runs.create`, `status (i+1)` from the i+1-th
`runs.retrieve`); `elapsed i` is `time.time() - start_time` as computed
in iteration `i`.  The returned index is the iteration at which the
loop exited, which is also the number of `runs.retrieve` calls made. -/
def pollLoop (timeout_seconds : ℚ) (status : Nat → String) (elapsed : Nat → ℚ) :
    Nat → Nat → PollOutcome × Nat
  | 0, i => (PollOutcome.fuelOut, i)
  | fuel + 1, i =>
    if ["queued", "in_progress"].contains (status i) then
      if timeout_seconds < elapsed i then (PollOutcome.timedOut, i)
      else pollLoop timeout_seconds status elapsed fuel (i + 1)
    else (PollOutcome.terminal (status i), i)

/-- The `runs.retrieve` calls made by a poll loop that exited at
iteration `i`: one per iteration `1, …, i`. -/
def retrieveRunCalls (i : Nat) : List RemoteCall :=
  (List.range i).map (fun j => RemoteCall.retrieveRun (j + 1))

/-- The environment a `generate_assistant_response` call runs against:
the configuration read from the Bolt context and the behaviour of the
remote service during this call. -/
structure Env where
  assistant_id : Option String
  runStatus : Nat → String
  elapsed : Nat → ℚ
  lastError : List Char
  listMessages : String → Nat → List Message
  retrieveFile : String → Option (List Char)

/-- Result of `generate_assistant_response`: either a returned string or
a raised `TimeoutError` (`fuelOut` marks exhausted modelling fuel). -/
inductive GenOutcome where
  | ok (text : List Char) : GenOutcome
  | timeoutErr : GenOutcome
  | outOfFuel : GenOutcome
deriving DecidableEq

/-- What one `generate_assistant_response` call produced: its outcome,
the trace of remote calls made, and the log entries written. -/
structure GenOut where
  outcome : GenOutcome
  calls : List RemoteCall
  logs : List (List Char)
deriving DecidableEq

def errNoAssistant : List Char := ("Error: No assistant ID provided").toList

def logNoAssistant : List Char := ("No assistant ID provided in context").toList

/-- `f"Error: The operation failed with status: {run.status}"`. -/
def failText (s : String) : List Char :=
  ("Error: The operation failed with status: ").toList ++ s.toList

/-- `f"Run failed with status {run.status}"`. -/
def runFailedLog (s : String) : List Char :=
  ("Run failed with status ").toList ++ s.toList

/-- `f"Failure reason: {run.last_error}"`. -/
def failureReasonLog (e : List Char) : List Char :=
  ("Failure reason: ").toList ++ e

/-- `f"Response generation took {spent_time} seconds"` (debug level;
the interpolated timing value is elided). -/
def tookLog : List Char := ("Response generation took ").toList

def noResponseText : List Char := ("No response received from the assistant").toList

def noTextContentText : List Char :=
  ("No text content found in the assistant's response").toList

/-- `generate_assistant_response(context, logger, prompt,
timeout_seconds)`: thread + message creation, the assistant-id check,
run creation, the deadline-bounded poll loop, and response extraction
with citation processing. -/
def generate_assistant_response (env : Env) (timeout_seconds : ℚ) (fuel : Nat)
    (prompt : List Char) : GenOut :=
  let calls0 : List RemoteCall := [RemoteCall.createThread, RemoteCall.createMessage prompt]
  match env.assistant_id with
  | none => ⟨GenOutcome.ok errNoAssistant, calls0, [logNoAssistant]⟩
  | some _ =>
    let calls1 := calls0 ++ [RemoteCall.createRun]
    match pollLoop timeout_seconds env.runStatus env.elapsed fuel 0 with
    | (PollOutcome.timedOut, i) => ⟨GenOutcome.timeoutErr, calls1 ++ retrieveRunCalls i, []⟩
    | (PollOutcome.fuelOut, i) => ⟨GenOutcome.outOfFuel, calls1 ++ retrieveRunCalls i, []⟩
    | (PollOutcome.terminal s, i) =>
      let calls2 := calls1 ++ retrieveRunCalls i
      if s ≠ "completed" then
        ⟨GenOutcome.ok (failText s), calls2,
         runFailedLog s :: (if s = "failed" then [failureReasonLog env.lastError] else [])⟩
      else
        let calls3 := calls2 ++ [RemoteCall.listMessages "desc" 1]
        match env.listMessages "desc" 1 with
        | [] => ⟨GenOutcome.ok noResponseText, calls3, [tookLog]⟩
        | m :: _ =>
          match m.content.find? (fun c => c.type == "text") with
          | some item =>
            let r := process_citations env.retrieveFile item.text
            ⟨GenOutcome.ok r.text, calls3 ++ r.calls, tookLog :: r.logs⟩
          | none => ⟨GenOutcome.ok noTextContentText, calls3, [tookLog]⟩

/-- Reference function for the spec's "first-seen order": the distinct
elements of a list not already in `seen`, each kept at its first
occurrence, in order of first appearance. -/
def firstSeenAux (seen : List String) : List String → List String
  | [] => []
  | f :: l => if f ∈ seen then firstSeenAux seen l else f :: firstSeenAux (seen ++ [f]) l

/-- Reference function pairing a list of keys with consecutive indices
starting at `n`. -/
def indexFrom (n : Nat) : List String → List (String × Nat)
  | [] => []
  | f :: l => (f, n) :: indexFrom (n + 1) l

/-! ## Helper lemmas -/

theorem lookup_isSome_iff {β : Type} (f : String) :
    ∀ l : List (String × β), (List.lookup f l).isSome ↔ f ∈ l.map Prod.fst
  | [] => by simp [List.lookup]
  | (k, b) :: l => by
    by_cases h : f = k
    · subst h; simp [List.lookup]
    · have hb : (f == k) = false := by simp [h]
      simp [List.lookup, hb, h, lookup_isSome_iff f l]

theorem catalog_eq (retrieve : String → Option (List Char)) :
    ∀ (anns : List Annotation) (fc : List (String × List Char)) (ci : List (String × Nat)),
    (∀ f ∈ anns.filterMap annFid, (retrieve f).isSome) →
    catalog retrieve anns fc ci =
      (some (fc ++ (firstSeenAux (fc.map Prod.fst) (anns.filterMap annFid)).map
                (fun f => (f, (retrieve f).getD [])),
             ci ++ indexFrom (ci.length + 1)
                (firstSeenAux (fc.map Prod.fst) (anns.filterMap annFid))),
       (firstSeenAux (fc.map Prod.fst) (anns.filterMap annFid)).map RemoteCall.retrieveFile) := by
  intro anns
  induction anns with
  | nil => intro fc ci _; simp [catalog, firstSeenAux, indexFrom]
  | cons a rest ih =>
    intro fc ci h
    cases hfid : annFid a with
    | none =>
      have hfm : (a :: rest).filterMap annFid = rest.filterMap annFid := by
        simp [List.filterMap_cons, hfid]
      rw [hfm]
      simp only [catalog, hfid]
      exact ih fc ci (by rw [← hfm] at *; intro f hf; exact h f hf)
    | some g =>
      have hfm : (a :: rest).filterMap annFid = g :: rest.filterMap annFid := by
        simp [List.filterMap_cons, hfid]
      have hrest : ∀ f ∈ rest.filterMap annFid, (retrieve f).isSome := by
        intro f hf
        exact h f (by rw [hfm]; exact List.mem_cons_of_mem _ hf)
      rcases hg : List.lookup g fc with _ | v
      · have hnot : g ∉ fc.map Prod.fst := by
          intro hmem
          have := (lookup_isSome_iff g fc).mpr hmem
          rw [hg] at this
          simp at this
        have hgsome : (retrieve g).isSome := h g (by rw [hfm]; exact List.mem_cons_self g _)
        obtain ⟨fname, hfn⟩ := Option.isSome_iff_exists.mp hgsome
        rw [hfm]
        simp only [catalog, hfid, hg, Option.isSome_none, Bool.false_eq_true, if_false, hfn]
        rw [ih (fc ++ [(g, fname)]) (ci ++ [(g, ci.length + 1)]) hrest]
        simp only [firstSeenAux, hnot, if_false, List.map_append, indexFrom]
        simp [hfn, List.append_assoc, indexFrom, Nat.add_assoc]
      · have hmem : g ∈ fc.map Prod.fst := by
          apply (lookup_isSome_iff g fc).mp
          rw [hg]; rfl
        rw [hfm]
        simp only [catalog, hfid, hg, Option.isSome_some, if_true]
        rw [ih fc ci hrest]
        simp [firstSeenAux, hmem]

theorem firstSeenAux_mem (l : List String) :
    ∀ seen x, x ∈ firstSeenAux seen l ↔ (x ∈ l ∧ x ∉ seen) := by
  induction l with
  | nil => intro seen x; simp [firstSeenAux]
  | cons f l ih =>
    intro seen x
    by_cases hf : f ∈ seen
    · rw [firstSeenAux, if_pos hf, ih]
      constructor
      · rintro ⟨hx, hs⟩; exact ⟨List.mem_cons_of_mem _ hx, hs⟩
      · rintro ⟨hx, hs⟩
        rcases List.mem_cons.mp hx with rfl | hx
        · exact absurd hf hs
        · exact ⟨hx, hs⟩
    · rw [firstSeenAux, if_neg hf]
      constructor
      · intro hx
        rcases List.mem_cons.mp hx with rfl | hx
        · exact ⟨List.mem_cons_self _ _, hf⟩
        · have h2 := (ih _ x).mp hx
          simp only [List.mem_append, List.mem_singleton, not_or] at h2
          exact ⟨List.mem_cons_of_mem _ h2.1, h2.2.1⟩
      · rintro ⟨hx, hs⟩
        rcases List.mem_cons.mp hx with rfl | hx
        · exact List.mem_cons_self _ _
        · by_cases hxf : x = f
          · subst hxf; exact List.mem_cons_self _ _
          · refine List.mem_cons_of_mem _ ((ih _ x).mpr ⟨hx, ?_⟩)
            simp [hs, hxf]

theorem firstSeenAux_nodup (l : List String) : ∀ seen, (firstSeenAux seen l).Nodup := by
  induction l with
  | nil => intro seen; simp [firstSeenAux]
  | cons f l ih =>
    intro seen
    by_cases hf : f ∈ seen
    · rw [firstSeenAux, if_pos hf]; exact ih seen
    · rw [firstSeenAux, if_neg hf]
      refine List.nodup_cons.mpr ⟨?_, ih _⟩
      intro hmem
      have h2 := (firstSeenAux_mem l (seen ++ [f]) f).mp hmem
      simp at h2

theorem indexFrom_map_fst : ∀ (l : List String) (n : Nat),
    (indexFrom n l).map Prod.fst = l
  | [], _ => rfl
  | f :: l, n => by simp [indexFrom, indexFrom_map_fst l (n + 1)]

theorem indexFrom_map_snd : ∀ (l : List String) (n : Nat),
    (indexFrom n l).map Prod.snd = List.range' n l.length
  | [], n => by simp [indexFrom]
  | f :: l, n => by
    simp [indexFrom, indexFrom_map_snd l (n + 1), List.range'_succ]

theorem lookup_indexFrom (l : List String) : ∀ (n i : Nat) (hi : i < l.length),
    l.Nodup → List.lookup l[i] (indexFrom n l) = some (n + i) := by
  induction l with
  | nil => intro n i hi _; simp at hi
  | cons f l ih =>
    intro n i hi hnd
    cases i with
    | zero => simp [indexFrom, List.lookup]
    | succ j =>
      have hj : j < l.length := by simpa using hi
      have hx : (f :: l)[j + 1] = l[j] := by simp
      have hne : l[j] ≠ f := by
        intro he
        exact (List.nodup_cons.mp hnd).1 (he ▸ List.getElem_mem hj)
      have hb : (l[j] == f) = false := beq_eq_false_iff_ne.mpr hne
      rw [hx, indexFrom]
      simp only [List.lookup, hb]
      rw [ih (n + 1) j hj (List.nodup_cons.mp hnd).2]
      congr 1
      omega

theorem substitute_isSome (ci : List (String × Nat)) :
    ∀ (anns : List Annotation) (mv : List Char),
    (∀ f ∈ anns.filterMap annFid, (List.lookup f ci).isSome) →
    (substitute ci anns mv).isSome := by
  intro anns
  induction anns with
  | nil => intro mv _; simp [substitute]
  | cons a rest ih =>
    intro mv h
    cases hfid : annFid a with
    | none =>
      simp only [substitute, hfid]
      refine ih mv (fun f hf => h f ?_)
      simp [List.filterMap_cons, hfid, hf]
    | some fid =>
      have hs : (List.lookup fid ci).isSome := by
        refine h fid ?_
        simp [List.filterMap_cons, hfid]
      obtain ⟨idx, hidx⟩ := Option.isSome_iff_exists.mp hs
      simp only [substitute, hfid, hidx]
      refine ih _ (fun f hf => h f ?_)
      simp only [List.filterMap_cons, hfid, List.mem_cons]
      exact Or.inr hf

theorem buildCitations_eq (ci : List (String × Nat)) (g : String → List Char) :
    ∀ G : List String, (∀ f ∈ G, (List.lookup f ci).isSome) →
    buildCitations ci (G.map (fun f => (f, g f))) =
      some (G.map (fun f => citeLine ((List.lookup f ci).getD 0) (g f))) := by
  intro G
  induction G with
  | nil => intro _; simp [buildCitations]
  | cons f G ih =>
    intro h
    obtain ⟨idx, hidx⟩ := Option.isSome_iff_exists.mp (h f (List.mem_cons_self f G))
    simp only [List.map_cons, buildCitations, hidx]
    rw [ih (fun x hx => h x (List.mem_cons_of_mem _ hx))]
    simp [hidx]

theorem process_citations_success (retrieve : String → Option (List Char)) (tc : TextContent)
    (F : List String)
    (hF : F = firstSeenAux [] (tc.annotations.filterMap annFid))
    (hne : tc.annotations ≠ [])
    (hret : ∀ f ∈ tc.annotations.filterMap annFid, (retrieve f).isSome) :
    ∃ body,
      substitute (indexFrom 1 F) tc.annotations tc.value = some body ∧
      process_citations retrieve tc =
        ⟨(if F = [] then body
          else body ++ ("\n\n").toList ++ joinWith ("\n").toList
            (F.map (fun f =>
              citeLine ((List.lookup f (indexFrom 1 F)).getD 0) ((retrieve f).getD [])))),
         F.map RemoteCall.retrieveFile, []⟩ := by
  have hcat := catalog_eq retrieve tc.annotations [] [] hret
  simp only [List.map_nil, List.nil_append, List.length_nil, Nat.zero_add] at hcat
  rw [← hF] at hcat
  have hmemCI : ∀ f ∈ tc.annotations.filterMap annFid,
      (List.lookup f (indexFrom 1 F)).isSome := by
    intro f hf
    apply (lookup_isSome_iff f _).mpr
    rw [indexFrom_map_fst]
    rw [hF]
    exact (firstSeenAux_mem _ [] f).mpr ⟨hf, by simp⟩
  obtain ⟨body, hbody⟩ :=
    Option.isSome_iff_exists.mp (substitute_isSome (indexFrom 1 F) tc.annotations tc.value hmemCI)
  have hmemF : ∀ f ∈ F, (List.lookup f (indexFrom 1 F)).isSome := by
    intro f hf
    apply (lookup_isSome_iff f _).mpr
    rw [indexFrom_map_fst]
    exact hf
  have hbuild := buildCitations_eq (indexFrom 1 F) (fun f => (retrieve f).getD []) F hmemF
  refine ⟨body, hbody, ?_⟩
  by_cases hF0 : F = []
  · subst hF0
    simp only [process_citations, if_neg hne, hcat, hbody, List.map_nil] at *
    simp [process_citations, if_neg hne, hcat, hbody, buildCitations]
  · simp only [process_citations, if_neg hne, hcat, hbody, hbuild]
    have hmap : F.map (fun f =>
        citeLine ((List.lookup f (indexFrom 1 F)).getD 0) ((retrieve f).getD [])) ≠ [] := by
      simp [hF0]
    simp [hmap, hF0]

theorem lookup_append_singleton_none {β : Type} (f g : String) (x : β) :
    ∀ l : List (String × β), List.lookup f l = none → f ≠ g →
    List.lookup f (l ++ [(g, x)]) = none := by
  intro l
  induction l with
  | nil =>
    intro _ hne
    simp [List.lookup, beq_eq_false_iff_ne.mpr hne]
  | cons p l ih =>
    intro h hne
    rcases p with ⟨k, b⟩
    by_cases hk : f = k
    · subst hk; simp [List.lookup] at h
    · have hb : (f == k) = false := beq_eq_false_iff_ne.mpr hk
      simp only [List.cons_append, List.lookup, hb] at h ⊢
      exact ih h hne

theorem catalog_fails (retrieve : String → Option (List Char)) :
    ∀ (anns : List Annotation) (fc : List (String × List Char)) (ci : List (String × Nat))
      (f : String),
    (∃ a ∈ anns, annFid a = some f) → retrieve f = none →
    List.lookup f fc = none →
    (catalog retrieve anns fc ci).1 = none := by
  intro anns
  induction anns with
  | nil =>
    rintro fc ci f ⟨a, ha, _⟩ _ _
    simp at ha
  | cons b rest ih =>
    rintro fc ci f ⟨a, ha, hafid⟩ hnone hlook
    rcases List.mem_cons.mp ha with rfl | har
    · have hfc : (List.lookup f fc).isSome = false := by rw [hlook]; rfl
      simp [catalog, hafid, hfc, hnone]
    · cases hbfid : annFid b with
      | none =>
        simp only [catalog, hbfid]
        exact ih fc ci f ⟨a, har, hafid⟩ hnone hlook
      | some g =>
        rcases hg : List.lookup g fc with _ | v
        · have hfc : (List.lookup g fc).isSome = false := by rw [hg]; rfl
          rcases hgr : retrieve g with _ | fname
          · simp [catalog, hbfid, hfc, hgr]
          · have hne : f ≠ g := by
              intro he
              rw [he, hgr] at hnone
              exact Option.noConfusion hnone
            simp only [catalog, hbfid, hfc, Bool.false_eq_true, if_false, hgr]
            exact ih (fc ++ [(g, fname)]) (ci ++ [(g, ci.length + 1)]) f
              ⟨a, har, hafid⟩ hnone
              (lookup_append_singleton_none f g fname fc hlook hne)
        · have hfc : (List.lookup g fc).isSome = true := by rw [hg]; rfl
          simp only [catalog, hbfid, hfc, if_true]
          exact ih fc ci f ⟨a, har, hafid⟩ hnone hlook

theorem occursIn_append_right (p : List Char) : ∀ pre : List Char,
    occursIn p (pre ++ p) = true := by
  intro pre
  induction pre with
  | nil =>
    cases p with
    | nil => simp [occursIn]
    | cons c s =>
      rw [List.nil_append, occursIn]
      have : (c :: s).isPrefixOf (c :: s) = true :=
        List.isPrefixOf_iff_prefix.mpr (List.prefix_refl _)
      simp [this]
  | cons c pre ih =>
    rw [List.cons_append, occursIn, ih]
    simp

theorem pollLoop_timedOut (t : ℚ) (status : Nat → String) (elapsed : Nat → ℚ) (i0 : Nat)
    (hstat : ∀ j, (["queued", "in_progress"].contains (status j)) = true)
    (hlate : t < elapsed i0)
    (hearly : ∀ j < i0, elapsed j ≤ t) :
    ∀ (fuel i : Nat), i ≤ i0 → i0 - i < fuel →
    pollLoop t status elapsed fuel i = (PollOutcome.timedOut, i0) := by
  intro fuel
  induction fuel with
  | zero => intro i _ h2; omega
  | succ fuel ih =>
    intro i hi hfuel
    rw [pollLoop]
    simp only [hstat i, if_true]
    by_cases hii : i = i0
    · subst hii
      rw [if_pos hlate]
    · have hilt : i < i0 := lt_of_le_of_ne hi hii
      rw [if_neg (not_lt.mpr (hearly i hilt))]
      exact ih (i + 1) hilt (by omega)

theorem pyReplaceAux_no_occurrence (p r : List Char) (hp : p ≠ []) :
    ∀ (fuel : Nat) (s : List Char), s.length ≤ fuel → occursIn p s = false →
    pyReplaceAux p r fuel s = s := by
  intro fuel
  induction fuel with
  | zero =>
    intro s hl _
    cases s with
    | nil => simp [pyReplaceAux, hp]
    | cons c s' => simp at hl
  | succ fuel ih =>
    intro s hl hocc
    cases s with
    | nil => simp [pyReplaceAux, hp]
    | cons c s' =>
      rw [occursIn] at hocc
      have h1 : p.isPrefixOf (c :: s') = false := by
        cases hpp : p.isPrefixOf (c :: s')
        · rfl
        · rw [hpp] at hocc; simp at hocc
      have h2 : occursIn p s' = false := by
        cases hpp : occursIn p s'
        · rfl
        · rw [hpp] at hocc; simp at hocc
      rw [pyReplaceAux, if_neg (by simp [h1]), if_neg hp]
      rw [ih s' (by simp at hl; omega) h2]

theorem pyReplaceAux_parts (p r : List Char) (hp : p ≠ []) :
    ∀ (fuel : Nat) (s : List Char), s.length ≤ fuel →
    ∃ parts : List (List Char), parts ≠ [] ∧
      s = joinWith p parts ∧
      pyReplaceAux p r fuel s = joinWith r parts ∧
      ∀ t ∈ parts, occursIn p t = false := by
  intro fuel
  induction fuel with
  | zero =>
    intro s hl
    cases s with
    | nil =>
      refine ⟨[[]], by simp, by simp [joinWith], by simp [pyReplaceAux, hp, joinWith], ?_⟩
      intro t ht
      simp only [List.mem_singleton] at ht
      subst ht
      simp [occursIn, hp]
    | cons c s' => simp at hl
  | succ fuel ih =>
    intro s hl
    cases s with
    | nil =>
      refine ⟨[[]], by simp, by simp [joinWith], by simp [pyReplaceAux, hp, joinWith], ?_⟩
      intro t ht
      simp only [List.mem_singleton] at ht
      subst ht
      simp [occursIn, hp]
    | cons c s' =>
      by_cases hpre : p.isPrefixOf (c :: s') = true
      · have hdrop : p ++ (c :: s').drop p.length = c :: s' :=
          List.prefix_iff_eq_append.mp (List.isPrefixOf_iff_prefix.mp hpre)
        have hplen : 1 ≤ p.length := by
          cases p with
          | nil => exact absurd rfl hp
          | cons x xs => simp
        have hlen : ((c :: s').drop p.length).length ≤ fuel := by
          simp only [List.length_drop, List.length_cons]
          simp only [List.length_cons] at hl
          omega
        obtain ⟨parts', hne', hs', hr', hocc'⟩ := ih ((c :: s').drop p.length) hlen
        refine ⟨[] :: parts', by simp, ?_, ?_, ?_⟩
        · cases parts' with
          | nil => exact absurd rfl hne'
          | cons u us =>
            show c :: s' = joinWith p ([] :: u :: us)
            rw [joinWith, List.nil_append, ← hs', hdrop]
        · cases parts' with
          | nil => exact absurd rfl hne'
          | cons u us =>
            show pyReplaceAux p r (fuel + 1) (c :: s') = joinWith r ([] :: u :: us)
            rw [pyReplaceAux, if_pos ⟨hp, hpre⟩, hr', joinWith, List.nil_append]
        · intro t ht
          rcases List.mem_cons.mp ht with rfl | ht
          · simp [occursIn, hp]
          · exact hocc' t ht
      · have hpre' : p.isPrefixOf (c :: s') = false := by
          cases hx : p.isPrefixOf (c :: s')
          · rfl
          · exact absurd hx hpre
        have hcond : ¬(p ≠ [] ∧ p.isPrefixOf (c :: s') = true) := by
          rintro ⟨_, hx⟩
          rw [hpre'] at hx
          exact Bool.noConfusion hx
        obtain ⟨parts', hne', hs', hr', hocc'⟩ := ih s' (by simp at hl; omega)
        cases parts' with
        | nil => exact absurd rfl hne'
        | cons u us =>
          have hus : u <+: s' := by
            cases us with
            | nil => rw [joinWith] at hs'; exact hs' ▸ List.prefix_refl u
            | cons u2 us2 =>
              rw [joinWith] at hs'
              rw [hs']
              exact (List.prefix_append u p).trans
                (List.prefix_append (u ++ p) (joinWith p (u2 :: us2)))
          refine ⟨(c :: u) :: us, by simp, ?_, ?_, ?_⟩
          · cases us with
            | nil =>
              rw [joinWith] at hs'
              show c :: s' = joinWith p [c :: u]
              rw [joinWith, hs']
            | cons u2 us2 =>
              rw [joinWith] at hs'
              show c :: s' = joinWith p ((c :: u) :: u2 :: us2)
              rw [joinWith, hs']
              simp
          · rw [pyReplaceAux, if_neg hcond, if_neg hp, hr']
            cases us with
            | nil =>
              show c :: joinWith r [u] = joinWith r [c :: u]
              rw [joinWith, joinWith]
            | cons u2 us2 =>
              show c :: joinWith r (u :: u2 :: us2) = joinWith r ((c :: u) :: u2 :: us2)
              rw [joinWith, joinWith]
              simp
          · intro w hw
            rcases List.mem_cons.mp hw with rfl | hw
            · have ht_pre : occursIn p u = false := hocc' u (List.mem_cons_self _ _)
              have hpre2 : p.isPrefixOf (c :: u) = false := by
                cases hx : p.isPrefixOf (c :: u)
                · rfl
                · exfalso
                  have h1 : p <+: (c :: u) := List.isPrefixOf_iff_prefix.mp hx
                  have h2 : (c :: u) <+: (c :: s') := by
                    rcases hus with ⟨z, hz⟩
                    exact ⟨z, by rw [← hz]; rfl⟩
                  have h3 : p.isPrefixOf (c :: s') = true :=
                    List.isPrefixOf_iff_prefix.mpr (h1.trans h2)
                  rw [hpre'] at h3
                  exact Bool.noConfusion h3
              rw [occursIn, hpre2, ht_pre]
              rfl
            · exact hocc' w (List.mem_cons_of_mem _ hw)

/-! ## Claim theorems -/

/-- Claim C5: for every response text whose annotation sequence is
empty, `process_citations` returns the text value unchanged,
byte-for-byte, and performs no remote file-retrieval calls. -/
theorem C5_empty_noop (retrieve : String → Option (List Char)) (tc : TextContent)
    (h : tc.annotations = []) :
    (process_citations retrieve tc).text = tc.value ∧
    (process_citations retrieve tc).calls = [] := by
  constructor <;> simp [process_citations, h]

theorem C5_empty_noop_witness :
    (process_citations (fun _ => none) ⟨("hello").toList, []⟩).text = ("hello").toList ∧
    (process_citations (fun _ => none) ⟨("hello").toList, []⟩).calls = [] :=
  C5_empty_noop (fun _ => none) ⟨("hello").toList, []⟩ rfl

/-- Claim C6: if the remote file lookup raises for some annotation's
file id, `process_citations` catches the error, returns the original
text value unmodified instead of propagating, and reports the error to
the logger. -/
theorem C6_fail_soft (retrieve : String → Option (List Char)) (tc : TextContent)
    (f : String)
    (hmem : ∃ a ∈ tc.annotations, annFid a = some f)
    (hnone : retrieve f = none) :
    (process_citations retrieve tc).text = tc.value ∧
    (process_citations retrieve tc).logs ≠ [] := by
  have hne : tc.annotations = [] → False := by
    intro h
    rw [h] at hmem
    obtain ⟨a, ha, _⟩ := hmem
    simp at ha
  have hfail := catalog_fails retrieve tc.annotations [] [] f hmem hnone (by simp [List.lookup])
  rcases hcat : catalog retrieve tc.annotations [] [] with ⟨o, calls⟩
  rw [hcat] at hfail
  simp only at hfail
  subst hfail
  have hne' : ¬(tc.annotations = []) := hne
  constructor <;> simp [process_citations, hne', hcat, citErrLog]

theorem C6_fail_soft_witness :
    (process_citations (fun _ => none)
      ⟨("abc").toList, [⟨AnnKind.file_citation "f9", ("a").toList⟩]⟩).text
        = ("abc").toList ∧
    (process_citations (fun _ => none)
      ⟨("abc").toList, [⟨AnnKind.file_citation "f9", ("a").toList⟩]⟩).logs ≠ [] :=
  C6_fail_soft (fun _ => none)
    ⟨("abc").toList, [⟨AnnKind.file_citation "f9", ("a").toList⟩]⟩ "f9"
    ⟨⟨AnnKind.file_citation "f9", ("a").toList⟩, by simp, rfl⟩ rfl

/-- Claim C7: on the concrete refund-policy example (one file citation
for `f1` with span `【1】` resolving to `refunds.pdf`),
`process_citations` returns exactly the substituted text followed by the
single footnote. -/
theorem C7_example :
    process_citations
      (fun fid => if fid = "f1" then some (("refunds.pdf").toList) else none)
      ⟨("See policy doc【1】.").toList,
       [⟨AnnKind.file_citation "f1", ("【1】").toList⟩]⟩ =
    ⟨("See policy doc [1].\n\n[1] Citation from refunds.pdf").toList,
     [RemoteCall.retrieveFile "f1"], []⟩ := by
  decide

/-- Claim C2: for every annotation sequence of file citations and file
paths (successfully resolved), the number of footnote lines appended
after the text equals the number of distinct file ids occurring in the
sequence, and never exceeds the number of annotations. -/
theorem C2_footnote_count (retrieve : String → Option (List Char)) (tc : TextContent)
    (hkind : ∀ a ∈ tc.annotations, (annFid a).isSome)
    (hret : ∀ f ∈ tc.annotations.filterMap annFid, (retrieve f).isSome) :
    ∃ body lines,
      (process_citations retrieve tc).text =
        (if lines = [] then body
         else body ++ ("\n\n").toList ++ joinWith ("\n").toList lines) ∧
      lines.length = (tc.annotations.filterMap annFid).toFinset.card ∧
      lines.length ≤ tc.annotations.length := by
  by_cases hne : tc.annotations = []
  · refine ⟨tc.value, [], ?_, ?_, ?_⟩ <;> simp [process_citations, hne]
  · obtain ⟨body, hsub, heq⟩ := process_citations_success retrieve tc
      (firstSeenAux [] (tc.annotations.filterMap annFid)) rfl hne hret
    set F := firstSeenAux [] (tc.annotations.filterMap annFid) with hFdef
    have hnd : F.Nodup := firstSeenAux_nodup _ []
    have hmem : ∀ x, x ∈ F ↔ x ∈ tc.annotations.filterMap annFid := by
      intro x
      rw [hFdef, firstSeenAux_mem]
      simp
    have hfin : F.toFinset = (tc.annotations.filterMap annFid).toFinset := by
      ext x
      simp only [List.mem_toFinset]
      exact hmem x
    have hlenF : F.length = (tc.annotations.filterMap annFid).toFinset.card := by
      rw [← hfin, List.toFinset_card_of_nodup hnd]
    refine ⟨body,
      F.map (fun f =>
        citeLine ((List.lookup f (indexFrom 1 F)).getD 0) ((retrieve f).getD [])),
      ?_, ?_, ?_⟩
    · rw [heq]
      by_cases hF0 : F = [] <;> simp [hF0]
    · rw [List.length_map, hlenF]
    · rw [List.length_map]
      calc F.length = (tc.annotations.filterMap annFid).toFinset.card := hlenF
        _ ≤ (tc.annotations.filterMap annFid).length := List.toFinset_card_le _
        _ ≤ tc.annotations.length := List.length_filterMap_le _ _

theorem C2_footnote_count_witness :
    ∃ body lines,
      (process_citations
        (fun fid => if fid = "f1" then some (("a.pdf").toList) else some (("b.pdf").toList))
        ⟨("x y z").toList,
         [⟨AnnKind.file_citation "f1", ("x").toList⟩,
          ⟨AnnKind.file_path "f2", ("y").toList⟩,
          ⟨AnnKind.file_citation "f1", ("z").toList⟩]⟩).text =
        (if lines = [] then body
         else body ++ ("\n\n").toList ++ joinWith ("\n").toList lines) ∧
      lines.length =
        (([⟨AnnKind.file_citation "f1", ("x").toList⟩,
           ⟨AnnKind.file_path "f2", ("y").toList⟩,
           ⟨AnnKind.file_citation "f1", ("z").toList⟩] : List Annotation).filterMap
            annFid).toFinset.card ∧
      lines.length ≤
        ([⟨AnnKind.file_citation "f1", ("x").toList⟩,
          ⟨AnnKind.file_path "f2", ("y").toList⟩,
          ⟨AnnKind.file_citation "f1", ("z").toList⟩] : List Annotation).length :=
  C2_footnote_count
    (fun fid => if fid = "f1" then some (("a.pdf").toList) else some (("b.pdf").toList))
    ⟨("x y z").toList,
     [⟨AnnKind.file_citation "f1", ("x").toList⟩,
      ⟨AnnKind.file_path "f2", ("y").toList⟩,
      ⟨AnnKind.file_citation "f1", ("z").toList⟩]⟩
    (by decide) (by decide)

/-- Claim C3: the cataloguing pass assigns citation indices 1-based in
first-seen order of distinct file ids, strictly increasing by one per
new file id; an already-seen file id adds no new entry (its cached
filename and index are reused), each file id is retrieved exactly once,
and the footnote list enumerates the distinct citations in the same
first-seen order. -/
theorem C3_first_seen_indices (retrieve : String → Option (List Char))
    (anns : List Annotation) (F : List String)
    (hF : F = firstSeenAux [] (anns.filterMap annFid))
    (hret : ∀ f ∈ anns.filterMap annFid, (retrieve f).isSome) :
    catalog retrieve anns [] [] =
      (some (F.map (fun f => (f, (retrieve f).getD [])), indexFrom 1 F),
       F.map RemoteCall.retrieveFile) ∧
    F.Nodup ∧
    (∀ x, x ∈ F ↔ x ∈ anns.filterMap annFid) ∧
    (indexFrom 1 F).map Prod.snd = List.range' 1 F.length ∧
    (∀ (i : Nat) (hi : i < F.length), List.lookup F[i] (indexFrom 1 F) = some (i + 1)) ∧
    buildCitations (indexFrom 1 F) (F.map (fun f => (f, (retrieve f).getD []))) =
      some (F.map (fun f =>
        citeLine ((List.lookup f (indexFrom 1 F)).getD 0) ((retrieve f).getD []))) := by
  have hnd : F.Nodup := hF ▸ firstSeenAux_nodup _ []
  have hmem : ∀ x, x ∈ F ↔ x ∈ anns.filterMap annFid := by
    intro x
    rw [hF, firstSeenAux_mem]
    simp
  have hmemCI : ∀ f ∈ F, (List.lookup f (indexFrom 1 F)).isSome := by
    intro f hf
    apply (lookup_isSome_iff f _).mpr
    rw [indexFrom_map_fst]
    exact hf
  refine ⟨?_, hnd, hmem, indexFrom_map_snd F 1, ?_, ?_⟩
  · have hcat := catalog_eq retrieve anns [] [] hret
    simp only [List.map_nil, List.nil_append, List.length_nil, Nat.zero_add] at hcat
    rw [← hF] at hcat
    exact hcat
  · intro i hi
    rw [lookup_indexFrom F 1 i hi hnd, Nat.add_comm]
  · exact buildCitations_eq (indexFrom 1 F) (fun f => (retrieve f).getD []) F hmemCI

theorem C3_first_seen_indices_witness :
    catalog (fun _ => some (("n.pdf").toList))
        [⟨AnnKind.file_citation "f1", ("x").toList⟩,
         ⟨AnnKind.file_path "f2", ("y").toList⟩,
         ⟨AnnKind.file_citation "f1", ("z").toList⟩] [] [] =
      (some ((["f1", "f2"].map (fun f =>
          (f, ((fun _ => some (("n.pdf").toList)) f).getD []))),
        indexFrom 1 ["f1", "f2"]),
       ["f1", "f2"].map RemoteCall.retrieveFile) ∧
    (["f1", "f2"] : List String).Nodup ∧
    (∀ x, x ∈ (["f1", "f2"] : List String) ↔
      x ∈ ([⟨AnnKind.file_citation "f1", ("x").toList⟩,
            ⟨AnnKind.file_path "f2", ("y").toList⟩,
            ⟨AnnKind.file_citation "f1", ("z").toList⟩] : List Annotation).filterMap annFid) ∧
    (indexFrom 1 ["f1", "f2"]).map Prod.snd = List.range' 1 (["f1", "f2"] : List String).length ∧
    (∀ (i : Nat) (hi : i < (["f1", "f2"] : List String).length),
      List.lookup (["f1", "f2"] : List String)[i] (indexFrom 1 ["f1", "f2"]) = some (i + 1)) ∧
    buildCitations (indexFrom 1 ["f1", "f2"])
        (["f1", "f2"].map (fun f => (f, ((fun _ => some (("n.pdf").toList)) f).getD []))) =
      some (["f1", "f2"].map (fun f =>
        citeLine ((List.lookup f (indexFrom 1 ["f1", "f2"])).getD 0)
          (((fun _ => some (("n.pdf").toList)) f).getD []))) :=
  C3_first_seen_indices (fun _ => some (("n.pdf").toList))
    [⟨AnnKind.file_citation "f1", ("x").toList⟩,
     ⟨AnnKind.file_path "f2", ("y").toList⟩,
     ⟨AnnKind.file_citation "f1", ("z").toList⟩]
    ["f1", "f2"] (by decide) (by decide)

/-- Claim C1: for a run whose status stays in queued/in_progress at
every poll, the loop raises `TimeoutError` at exactly the first
iteration whose elapsed time strictly exceeds `timeout_seconds` (never
at an iteration with elapsed ≤ timeout), and, the check preceding the
sleep, no `runs.retrieve` poll happens after the deadline is detected:
the run-retrieve trace is exactly polls 1..i0. -/
theorem C1_deadline (env : Env) (timeout_seconds : ℚ) (fuel : Nat) (prompt : List Char)
    (aid : String) (i0 : Nat)
    (haid : env.assistant_id = some aid)
    (hstat : ∀ j, (["queued", "in_progress"].contains (env.runStatus j)) = true)
    (hlate : timeout_seconds < env.elapsed i0)
    (hearly : ∀ j < i0, env.elapsed j ≤ timeout_seconds)
    (hfuel : i0 < fuel) :
    pollLoop timeout_seconds env.runStatus env.elapsed fuel 0 = (PollOutcome.timedOut, i0) ∧
    generate_assistant_response env timeout_seconds fuel prompt =
      ⟨GenOutcome.timeoutErr,
       [RemoteCall.createThread, RemoteCall.createMessage prompt, RemoteCall.createRun] ++
         retrieveRunCalls i0,
       []⟩ := by
  have hp := pollLoop_timedOut timeout_seconds env.runStatus env.elapsed i0 hstat hlate hearly
    fuel 0 (Nat.zero_le _) (by omega)
  refine ⟨hp, ?_⟩
  simp [generate_assistant_response, haid, hp]

theorem C1_deadline_witness :
    pollLoop 2 (fun _ => "in_progress") (fun i => (i : ℚ)) 5 0 = (PollOutcome.timedOut, 3) ∧
    generate_assistant_response
        ⟨some "aid", fun _ => "in_progress", fun i => (i : ℚ), [],
         fun _ _ => [], fun _ => none⟩ 2 5 (("hi").toList) =
      ⟨GenOutcome.timeoutErr,
       [RemoteCall.createThread, RemoteCall.createMessage (("hi").toList),
        RemoteCall.createRun] ++ retrieveRunCalls 3,
       []⟩ :=
  C1_deadline
    ⟨some "aid", fun _ => "in_progress", fun i => (i : ℚ), [], fun _ _ => [], fun _ => none⟩
    2 5 (("hi").toList) "aid" 3 rfl
    (fun _ => by
      show (["queued", "in_progress"].contains "in_progress") = true
      decide)
    (by norm_num)
    (by
      intro j hj
      interval_cases j <;> norm_num)
    (by norm_num)

/-- Claim C4 (amended): with `assistantId` absent, the function returns
the error text "Error: No assistant ID provided" and starts no run and
does no polling — but it does so only after the thread-create and
message-create network calls, which the source makes before the check. -/
theorem C4_no_assistant (env : Env) (t : ℚ) (fuel : Nat) (prompt : List Char)
    (h : env.assistant_id = none) :
    generate_assistant_response env t fuel prompt =
      ⟨GenOutcome.ok errNoAssistant,
       [RemoteCall.createThread, RemoteCall.createMessage prompt],
       [logNoAssistant]⟩ := by
  simp [generate_assistant_response, h]

theorem C4_no_assistant_witness :
    generate_assistant_response
        ⟨none, fun _ => "queued", fun _ => 0, [], fun _ _ => [], fun _ => none⟩
        10 3 (("hi").toList) =
      ⟨GenOutcome.ok errNoAssistant,
       [RemoteCall.createThread, RemoteCall.createMessage (("hi").toList)],
       [logNoAssistant]⟩ :=
  C4_no_assistant
    ⟨none, fun _ => "queued", fun _ => 0, [], fun _ _ => [], fun _ => none⟩
    10 3 (("hi").toList) rfl

/-- Claim C4 is false as stated: when `assistantId` is absent the
error text is indeed returned, but network calls are made before that
failure — the thread is created and the user message submitted. -/
theorem C4_counterexample :
    (generate_assistant_response
        ⟨none, fun _ => "queued", fun _ => 0, [], fun _ _ => [], fun _ => none⟩
        10 3 (("hi").toList)).outcome = GenOutcome.ok errNoAssistant ∧
    (generate_assistant_response
        ⟨none, fun _ => "queued", fun _ => 0, [], fun _ _ => [], fun _ => none⟩
        10 3 (("hi").toList)).calls =
      [RemoteCall.createThread, RemoteCall.createMessage (("hi").toList)] ∧
    (generate_assistant_response
        ⟨none, fun _ => "queued", fun _ => 0, [], fun _ _ => [], fun _ => none⟩
        10 3 (("hi").toList)).calls ≠ [] := by
  refine ⟨by decide, by decide, by decide⟩

/-- Claim C8 (amended): when the poll loop exits with a terminal status
other than `completed`, the function returns (does not throw) an error
text containing the status value; for status `failed`, the failure
detail is written to the error log — it is not part of the returned
text. -/
theorem C8_nonsuccess (env : Env) (t : ℚ) (fuel : Nat) (prompt : List Char)
    (aid : String) (s : String) (i : Nat)
    (haid : env.assistant_id = some aid)
    (hp : pollLoop t env.runStatus env.elapsed fuel 0 = (PollOutcome.terminal s, i))
    (hs : s ≠ "completed") :
    (generate_assistant_response env t fuel prompt).outcome = GenOutcome.ok (failText s) ∧
    occursIn s.toList (failText s) = true ∧
    (generate_assistant_response env t fuel prompt).logs =
      runFailedLog s :: (if s = "failed" then [failureReasonLog env.lastError] else []) ∧
    (s = "failed" → occursIn env.lastError (failureReasonLog env.lastError) = true) := by
  refine ⟨?_, occursIn_append_right _ _, ?_, fun _ => occursIn_append_right _ _⟩ <;>
    simp [generate_assistant_response, haid, hp, hs]

theorem C8_nonsuccess_witness :
    (generate_assistant_response
        ⟨some "aid", fun _ => "failed", fun _ => 0, ("rate_limited").toList,
         fun _ _ => [], fun _ => none⟩ 10 3 (("hi").toList)).outcome
      = GenOutcome.ok (failText "failed") ∧
    occursIn ("failed").toList (failText "failed") = true ∧
    (generate_assistant_response
        ⟨some "aid", fun _ => "failed", fun _ => 0, ("rate_limited").toList,
         fun _ _ => [], fun _ => none⟩ 10 3 (("hi").toList)).logs =
      runFailedLog "failed" ::
        (if "failed" = "failed" then [failureReasonLog (("rate_limited").toList)] else []) ∧
    ("failed" = "failed" →
      occursIn (("rate_limited").toList) (failureReasonLog (("rate_limited").toList)) = true) :=
  C8_nonsuccess
    ⟨some "aid", fun _ => "failed", fun _ => 0, ("rate_limited").toList,
     fun _ _ => [], fun _ => none⟩
    10 3 (("hi").toList) "aid" "failed" 0 rfl (by decide) (by decide)

/-- Claim C8 is false as stated in its last clause: for a run that
fails with failure detail "rate_limited", the returned result text
describes the status but does not carry the failure detail (the detail
is only logged). -/
theorem C8_counterexample :
    (generate_assistant_response
        ⟨some "aid", fun _ => "failed", fun _ => 0, ("rate_limited").toList,
         fun _ _ => [], fun _ => none⟩ 10 3 (("hi").toList)).outcome
      = GenOutcome.ok (failText "failed") ∧
    occursIn (("rate_limited").toList) (failText "failed") = false := by
  refine ⟨by decide, by decide⟩

/-- Claim C9: after a completed run, the messages are listed
newest-first with limit 1; an empty list yields the sentinel text "No
response received from the assistant", a newest message with no
text-typed content block yields the distinct sentinel "No text content
found in the assistant's response", and otherwise the first text-typed
block is processed and returned.  All three are returned values. -/
theorem C9_extraction (env : Env) (t : ℚ) (fuel : Nat) (prompt : List Char)
    (aid : String) (i : Nat)
    (haid : env.assistant_id = some aid)
    (hp : pollLoop t env.runStatus env.elapsed fuel 0 = (PollOutcome.terminal "completed", i)) :
    RemoteCall.listMessages "desc" 1 ∈ (generate_assistant_response env t fuel prompt).calls ∧
    (env.listMessages "desc" 1 = [] →
      (generate_assistant_response env t fuel prompt).outcome = GenOutcome.ok noResponseText) ∧
    (∀ m rest, env.listMessages "desc" 1 = m :: rest →
      (m.content.find? (fun c => c.type == "text") = none →
        (generate_assistant_response env t fuel prompt).outcome =
          GenOutcome.ok noTextContentText) ∧
      (∀ item, m.content.find? (fun c => c.type == "text") = some item →
        (generate_assistant_response env t fuel prompt).outcome =
          GenOutcome.ok (process_citations env.retrieveFile item.text).text)) := by
  refine ⟨?_, ?_, ?_⟩
  · rcases hm : env.listMessages "desc" 1 with _ | ⟨m, rest⟩
    · simp [generate_assistant_response, haid, hp, hm]
    · rcases hfind : m.content.find? (fun c => c.type == "text") with _ | item <;>
        simp [generate_assistant_response, haid, hp, hm, hfind]
  · intro hm
    simp [generate_assistant_response, haid, hp, hm]
  · intro m rest hm
    constructor
    · intro hfind
      simp [generate_assistant_response, haid, hp, hm, hfind]
    · intro item hfind
      simp [generate_assistant_response, haid, hp, hm, hfind]

theorem C9_extraction_witness :
    RemoteCall.listMessages "desc" 1 ∈
      (generate_assistant_response
        ⟨some "aid", fun _ => "completed", fun _ => 0, [],
         fun _ _ => [], fun _ => none⟩ 10 3 (("hi").toList)).calls ∧
    ((fun (_ : String) (_ : Nat) => ([] : List Message)) "desc" 1 = [] →
      (generate_assistant_response
        ⟨some "aid", fun _ => "completed", fun _ => 0, [],
         fun _ _ => [], fun _ => none⟩ 10 3 (("hi").toList)).outcome
        = GenOutcome.ok noResponseText) ∧
    (∀ m rest, (fun (_ : String) (_ : Nat) => ([] : List Message)) "desc" 1 = m :: rest →
      (m.content.find? (fun c => c.type == "text") = none →
        (generate_assistant_response
          ⟨some "aid", fun _ => "completed", fun _ => 0, [],
           fun _ _ => [], fun _ => none⟩ 10 3 (("hi").toList)).outcome
          = GenOutcome.ok noTextContentText) ∧
      (∀ item, m.content.find? (fun c => c.type == "text") = some item →
        (generate_assistant_response
          ⟨some "aid", fun _ => "completed", fun _ => 0, [],
           fun _ _ => [], fun _ => none⟩ 10 3 (("hi").toList)).outcome
          = GenOutcome.ok (process_citations (fun _ => none) item.text).text)) :=
  C9_extraction
    ⟨some "aid", fun _ => "completed", fun _ => 0, [], fun _ _ => [], fun _ => none⟩
    10 3 (("hi").toList) "aid" 0 rfl (by decide)

/-- Claim C10 (amended): the substitution pass applies Python
replace-all semantics — one catalogued annotation replaces every
(left-to-right, non-overlapping) occurrence of its span in the current
text, splitting the text into span-free parts rejoined by the marker —
and a later annotation with an identical span changes the text no
further provided the span no longer occurs in the substituted text;
the replacement can, however, reintroduce the span (marker content or
replacement boundaries), in which case a later identical-span
annotation does substitute again. -/
theorem C10_replace_all (ci : List (String × Nat)) (a : Annotation) (rest : List Annotation)
    (mv : List Char) (fid : String) (idx : Nat)
    (hfid : annFid a = some fid) (hidx : List.lookup fid ci = some idx)
    (hp : a.text ≠ []) :
    substitute ci (a :: rest) mv = substitute ci rest (pyReplace mv a.text (markerOf idx)) ∧
    (∃ parts : List (List Char), parts ≠ [] ∧
      mv = joinWith a.text parts ∧
      pyReplace mv a.text (markerOf idx) = joinWith (markerOf idx) parts ∧
      ∀ t ∈ parts, occursIn a.text t = false) ∧
    (occursIn a.text (pyReplace mv a.text (markerOf idx)) = false →
      ∀ r2, pyReplace (pyReplace mv a.text (markerOf idx)) a.text r2 =
        pyReplace mv a.text (markerOf idx)) := by
  refine ⟨?_, ?_, ?_⟩
  · simp [substitute, hfid, hidx]
  · exact pyReplaceAux_parts a.text (markerOf idx) hp mv.length mv (le_refl _)
  · intro hocc r2
    exact pyReplaceAux_no_occurrence a.text r2 hp _ _ (le_refl _) hocc

theorem C10_replace_all_witness :
    (substitute [("f1", 1)] [⟨AnnKind.file_citation "f1", ("ab").toList⟩] (("xabyab").toList) =
      substitute [("f1", 1)] []
        (pyReplace (("xabyab").toList) (("ab").toList) (markerOf 1))) ∧
    (∃ parts : List (List Char), parts ≠ [] ∧
      ("xabyab").toList = joinWith (("ab").toList) parts ∧
      pyReplace (("xabyab").toList) (("ab").toList) (markerOf 1) =
        joinWith (markerOf 1) parts ∧
      ∀ t ∈ parts, occursIn (("ab").toList) t = false) ∧
    (occursIn (("ab").toList)
        (pyReplace (("xabyab").toList) (("ab").toList) (markerOf 1)) = false →
      ∀ r2, pyReplace (pyReplace (("xabyab").toList) (("ab").toList) (markerOf 1))
          (("ab").toList) r2 =
        pyReplace (("xabyab").toList) (("ab").toList) (markerOf 1)) :=
  C10_replace_all [("f1", 1)] ⟨AnnKind.file_citation "f1", ("ab").toList⟩ []
    (("xabyab").toList) "f1" 1 rfl (by decide) (by decide)

/-- Claim C10 is false in its consequent: a later annotation whose span
text is identical but whose file id differs can find a remaining
occurrence, because replacing the span `[1]` with the marker ` [1]`
reintroduces the span.  Here the second annotation (same span `[1]`,
file id f2) changes the text further. -/
theorem C10_counterexample :
    substitute [("f1", 1), ("f2", 2)]
        [⟨AnnKind.file_citation "f1", ("[1]").toList⟩,
         ⟨AnnKind.file_citation "f2", ("[1]").toList⟩]
        (("x[1]").toList)
      = some (("x  [2]").toList) ∧
    substitute [("f1", 1), ("f2", 2)]
        [⟨AnnKind.file_citation "f1", ("[1]").toList⟩]
        (("x[1]").toList)
      = some (("x [1]").toList) ∧
    (("x  [2]").toList : List Char) ≠ ("x [1]").toList := by
  refine ⟨by decide, by decide, by decide⟩
